import Mathlib

/-!
Verification of the vcf_to_dataframe repository (biocodices/vcf_to_dataframe).

This file gives a shallow embedding, in Lean 4, of the parsing and
normalization pipeline implemented in src/vcf_to_dataframe/vcf_to_dataframe.py
and src/vcf_to_dataframe/helpers.py, and settles a list of claims about it.

Modelling conventions:
- A loaded pandas column/cell is modelled as a `String` (or `Option String`
  when NaN is possible); a DataFrame is a list of row records.
- Python exceptions are modelled with `Except PyErr`; a Python function that
  silently returns `None` is modelled with `Option`.
- Python string primitives (split, strip, startswith, replace, lower) are
  re-implemented over `List Char` with structural recursion so that every
  definition evaluates inside the kernel.
-/

/-- Python exception kinds relevant to this code base: `TypeError` (e.g.
subscripting or membership-testing `None`) and `ValueError msg`
(`raise ValueError(msg)` and failures of `int()`). -/
inductive PyErr where
  | typeError
  | valueError (msg : String)
deriving DecidableEq, Repr

/-- Whitespace characters recognised by Python's `str.strip()` (the subset
that can realistically occur in a VCF line). -/
def isWsChar (c : Char) : Bool :=
  c == ' ' || c == '\t' || c == '\n' || c == '\r'

/-- Strip leading and trailing whitespace, as Python's `str.strip()`. -/
def stripWs (cs : List Char) : List Char :=
  ((cs.dropWhile isWsChar).reverse.dropWhile isWsChar).reverse

/-- Split a character list at every occurrence of the separator `c`,
Python `str.split(c)` semantics: splitting the empty string yields `[""]`,
and adjacent separators yield empty fields. -/
def splitChars (c : Char) : List Char → List (List Char)
  | [] => [[]]
  | x :: xs =>
    match splitChars c xs with
    | [] => [[]]
    | g :: gs => if x == c then [] :: g :: gs else (x :: g) :: gs

/-- Python `s.split(c)` on strings. -/
def pySplit (c : Char) (s : String) : List String :=
  (splitChars c s.data).map (fun cs => ⟨cs⟩)

/-- Does `pre` occur as a prefix of `cs`? -/
def hasPfx : List Char → List Char → Bool
  | [], _ => true
  | _ :: _, [] => false
  | p :: ps, c :: cs => p == c && hasPfx ps cs

/-- Python `str.startswith(pre)`. -/
def startsWithStr (pre s : String) : Bool :=
  hasPfx pre.data s.data

/-- Left-to-right, non-overlapping replacement of every occurrence of `pat`
(non-empty) by `rep`, fuel-driven so it evaluates in the kernel. This is
Python `str.replace(pat, rep)`. -/
def replaceAllAux (pat rep : List Char) : Nat → List Char → List Char
  | 0, cs => cs
  | _ + 1, [] => []
  | fuel + 1, c :: cs =>
    if hasPfx pat (c :: cs) then rep ++ replaceAllAux pat rep fuel ((c :: cs).drop pat.length)
    else c :: replaceAllAux pat rep fuel cs

/-- Python `s.replace(pat, rep)` for a non-empty pattern. -/
def replaceAll (pat rep s : String) : String :=
  ⟨replaceAllAux pat.data rep.data s.data.length s.data⟩

/-- ASCII lower-casing of one character, as Python `str.lower()` acts on the
ASCII identifiers appearing in this code base. -/
def lowerChar (c : Char) : Char :=
  if 'A' ≤ c && c ≤ 'Z' then Char.ofNat (c.toNat + 32) else c

/-- Python `s.lower()` (ASCII fragment). -/
def lowerStr (s : String) : String :=
  ⟨s.data.map lowerChar⟩

/-! ## Header Resolver (vcf_to_dataframe.py, `_header_from_vcf`, `available_samples`)

The source scans the file line by line and, on the first line starting with
`#CHROM`, returns `line.strip().replace('#CHROM', 'CHROM').split('\t')`.
If the loop finishes without finding such a line, the Python function falls
off its end and implicitly returns `None`; this is modelled with `Option`.
-/

/-- Shallow embedding of `_header_from_vcf`, taking the file's decoded lines.
`none` is Python's implicit `None` return (no `#CHROM` line found). -/
def _header_from_vcf : List String → Option (List String)
  | [] => none
  | line :: rest =>
    if startsWithStr "#CHROM" line then
      some (pySplit '\t' (replaceAll "#CHROM" "CHROM" ⟨stripWs line.data⟩))
    else _header_from_vcf rest

/-- Shallow embedding of `available_samples`:
`_header_from_vcf(vcf_path)[9:]`. Subscripting the `None` returned for a
header-less file raises a Python `TypeError`. -/
def available_samples (lines : List String) : Except PyErr (List String) :=
  match _header_from_vcf lines with
  | none => .error .typeError
  | some h => .ok (h.drop 9)

/-! ## Sample Selector (vcf_to_dataframe.py, `_parse_samples`)

`keep_samples` may be `None`, a string, an int, or a list of strings; the
function body is guarded by `if sample_list:` (Python truthiness), wraps a
single string/int into a singleton of its `str()` form, and raises
`ValueError('"{}" not found in this VCF')` at the first requested sample
missing from the header.
-/

/-- The possible shapes of the `keep_samples` argument. -/
inductive SampleSpec where
  | noneSpec
  | str (s : String)
  | int (n : Int)
  | list (l : List String)
deriving DecidableEq, Repr

/-- Decimal rendering of a natural number (fuel-driven so it evaluates in
the kernel); fuel `n + 1` always suffices for `n`. -/
def natToChars : Nat → Nat → List Char
  | 0, _ => []
  | fuel + 1, n =>
    if n < 10 then [Char.ofNat (48 + n)]
    else natToChars fuel (n / 10) ++ [Char.ofNat (48 + n % 10)]

/-- Python `str(x)` for an int. -/
def pyStrInt : Int → String
  | .ofNat m => ⟨natToChars (m + 1) m⟩
  | .negSucc m => ⟨'-' :: natToChars (m + 2) (m + 1)⟩

/-- Python truthiness of the `keep_samples` argument: `None`, `''`, `0` and
`[]` are falsy. -/
def truthy : SampleSpec → Bool
  | .noneSpec => false
  | .str s => !(s == "")
  | .int n => !(n == 0)
  | .list l => !(l.isEmpty)

/-- The stringified request list: a single string or int is wrapped in a
singleton of its string form, a list is taken as is. -/
def coerceSpec : SampleSpec → List String
  | .noneSpec => []
  | .str s => [s]
  | .int n => [pyStrInt n]
  | .list l => l

/-- The message of the `ValueError` raised by `_parse_samples`. -/
def notFoundMsg (sample : String) : String :=
  "\"" ++ sample ++ "\" not found in this VCF"

/-- The validation loop of `_parse_samples`: raise at the first requested
sample that is not in the header. -/
def checkSamples (header : List String) : List String → Except PyErr Unit
  | [] => .ok ()
  | s :: rest =>
    if header.contains s then checkSamples header rest
    else .error (.valueError (notFoundMsg s))

/-- Shallow embedding of `_parse_samples(sample_list, vcf_header)`:
falsy request means no samples; otherwise coerce to a list of strings,
validate every entry against the header (first failure wins) and return the
coerced list unchanged. -/
def _parse_samples (spec : SampleSpec) (header : List String) :
    Except PyErr (List String) :=
  if truthy spec then
    match checkSamples header (coerceSpec spec) with
    | .error e => .error e
    | .ok () => .ok (coerceSpec spec)
  else .ok []

/-- `_parse_samples` when the header may be Python `None` (header-less file):
the loop's `sample not in vcf_header` then raises `TypeError` as soon as it
runs, which happens exactly when the request is truthy (a truthy request
always coerces to a non-empty list). -/
def parseSamplesOpt : Option (List String) → SampleSpec → Except PyErr (List String)
  | some h, spec => _parse_samples spec h
  | none, spec => if truthy spec then .error .typeError else .ok []

/-- The `keep_samples='all'` special case of `vcf_to_dataframe` (lines
41-42): a string equal to `'all'` case-insensitively is replaced by the full
`available_samples` list before `_parse_samples` runs. -/
def expandAll (lines : List String) : SampleSpec → Except PyErr SampleSpec
  | .str s =>
    if lowerStr s == "all" then
      match available_samples lines with
      | .error e => .error e
      | .ok l => .ok (.list l)
    else .ok (.str s)
  | spec => .ok spec

/-- Is the spec the case-insensitive `'all'` sentinel? -/
def specIsAll : SampleSpec → Bool
  | .str s => lowerStr s == "all"
  | _ => false

/-- The prelude of `vcf_to_dataframe` (lines 39-52), everything that runs
before the bulk `pd.read_table` load: resolve the header, expand `'all'`,
validate the requested samples, and build `usecols = vcf_header[:9] +
keep_samples`. `pd.read_table` only runs after this succeeds, so any error
returned here occurs before any bulk data load. Subscripting a `None`
header in `vcf_header[:9]` raises `TypeError`. -/
def parsePrelude (lines : List String) (spec : SampleSpec) :
    Except PyErr (List String) :=
  let hdr? := _header_from_vcf lines
  match expandAll lines spec with
  | .error e => .error e
  | .ok spec2 =>
    match parseSamplesOpt hdr? spec2 with
    | .error e => .error e
    | .ok ks =>
      match hdr? with
      | none => .error .typeError
      | some h => .ok (h.take 9 ++ ks)

/-- The nine fixed VCF column names as they appear in the header line of a
standard file (after the `#CHROM` to `CHROM` rewrite). -/
def stdFixed : List String :=
  ["CHROM", "POS", "ID", "REF", "ALT", "QUAL", "FILTER", "INFO", "FORMAT"]

/-! ## Field Normalizer: chromosome column (helpers.py, `make_chromosome_series_categorical`)

The source receives a pandas Series, stringifies it (`astype(str)`), strips
the `chr` prefix only when every value starts with it (note: `str.replace`
removes every occurrence of the substring, not only a leading one), builds
the ordered category list as the members of `[1..22, X, Y]` (stringified)
present in the series at that point, then value-replaces `'23'` by `'X'` and
`'24'` by `'Y'` and casts to the categorical dtype — a cast that turns every
value outside the category list into `NaN`. The model takes the stringified
column as a list of strings (astype(str) is the identity on it) and returns
the cast values (`none` = NaN) together with the category list.
-/

/-- The canonical chromosome names, `[str(c) for c in range(1, 23)] + ['X', 'Y']`. -/
def canonicalChroms : List String :=
  ["1", "2", "3", "4", "5", "6", "7", "8", "9", "10", "11", "12", "13", "14",
   "15", "16", "17", "18", "19", "20", "21", "22", "X", "Y"]

/-- `if all(new_series.str.startswith('chr')): new_series.str.replace('chr', '')`. -/
def stripChr (values : List String) : List String :=
  if values.all (fun v => startsWithStr "chr" v) then
    values.map (fun v => replaceAll "chr" "" v)
  else values

/-- The value-level `.replace('23', 'X').replace('24', 'Y')` of a Series
(pandas `Series.replace` substitutes whole cell values). -/
def replace2324 (v : String) : String :=
  if v == "23" then "X" else if v == "24" then "Y" else v

/-- An ordered categorical series: cast values (`none` for the NaN produced
by casting a value outside the category list) plus the ordered categories. -/
structure CatSeries where
  values : List (Option String)
  categories : List String
deriving DecidableEq, Repr

/-- Shallow embedding of `make_chromosome_series_categorical`. -/
def make_chromosome_series_categorical (series : List String) : CatSeries :=
  let stripped := stripChr series
  let cats := canonicalChroms.filter (fun c => stripped.contains c)
  ⟨(stripped.map replace2324).map (fun v => if cats.contains v then some v else none),
   cats⟩

/-! ## Genotype Extractor, compact mode (vcf_to_dataframe.py, `_extract_genos`)

`GENO_REGEX = re.compile(r'([\d|\.](?:[/|\|][\d|\.])?)')` and the check is
`GENO_REGEX.search(geno)` on `geno = geno_field.split(':')[0]`. Note that
inside a character class `|` is a literal, so the leading atom of the
pattern is "digit, '|' or '.'", and `re.search` looks for a match anywhere
in the string: since the second group of the pattern is optional, a match
exists if and only if some character of the string is a digit, `'|'` or
`'.'`. (`\d` matches Unicode digits in Python; the model restricts to the
ASCII digits that occur in VCF genotype fields.)
-/

/-- A character matched by the leading atom `[\d|\.]` of `GENO_REGEX`. -/
def genoAtomChar (c : Char) : Bool :=
  c.isDigit || c == '|' || c == '.'

/-- `GENO_REGEX.search(s)` succeeds: some position of `s` starts a match,
which (the trailing group being optional) holds iff some character of `s`
matches `[\d|\.]`. -/
def genoRegexSearch (s : String) : Bool :=
  s.data.any genoAtomChar

/-- `geno_field.split(':')[0]`: the first colon-delimited segment. -/
def firstSeg (cell : String) : String :=
  (pySplit ':' cell).headD ""

/-- The message of the `ValueError` raised by `_extract_genotype`. -/
def genoErrMsg (geno : String) : String :=
  "\"" ++ geno ++ "\" does not look like a genotype"

/-- Shallow embedding of the inner `_extract_genotype`: take the first
colon-delimited segment and raise unless `GENO_REGEX.search` finds a match
in it. -/
def _extract_genotype (cell : String) : Except PyErr String :=
  let geno := firstSeg cell
  if genoRegexSearch geno then .ok geno
  else .error (.valueError (genoErrMsg geno))

/-- Elementwise application of a fallible function over a list, propagating
the first raised exception (the effect of a Python comprehension or a pandas
`applymap`/`map` over cells when the function can raise). -/
def mapExcept {ε α β : Type} (f : α → Except ε β) : List α → Except ε (List β)
  | [] => .ok []
  | a :: as =>
    match f a with
    | .error e => .error e
    | .ok b =>
      match mapExcept f as with
      | .error e => .error e
      | .ok bs => .ok (b :: bs)

/-- Shallow embedding of `_extract_genos` on the block of sample columns
(`df.iloc[:, 9:].applymap(_extract_genotype)`): elementwise application with
the first raised exception propagating, so no table is returned on failure. -/
def _extract_genos (t : List (List String)) : Except PyErr (List (List String)) :=
  mapExcept (fun row => mapExcept _extract_genotype row) t

/-- Modelled from the spec's description of the genotype-call pattern, for
comparison with the code's search-based check: "one or two allele tokens —
digit or missing-marker — optionally joined by '/' or '|'", read as the
whole segment having that shape. -/
def specGenoCall (s : String) : Bool :=
  match s.data with
  | [a] => a.isDigit || a == '.'
  | [a, j, b] => (a.isDigit || a == '.') && (j == '/' || j == '|') && (b.isDigit || b == '.')
  | _ => false

/-! ## Genotype Extractor, unfold mode: per-row FORMAT zipping
(vcf_to_dataframe.py, `parse_genotypes` inside `_unfold_genotype_data`) -/

/-- Shallow embedding of `parse_genotypes`: `dict(zip(format.split(':'),
value.split(':')))`, kept as the association list produced by `zip` (Python
`zip` stops at the shorter sequence). -/
def parse_genotypes (fmt cell : String) : List (String × String) :=
  (pySplit ':' fmt).zip (pySplit ':' cell)

/-- Lookup in a `dict(zip(...))`: for duplicate keys the later binding wins,
missing keys give `None` (the NaN that `pd.DataFrame` fills in). -/
def dLookup (l : List (String × String)) (k : String) : Option String :=
  (l.reverse.find? (fun p => p.1 == k)).map Prod.snd

/-! ## Field Normalizer: integer FORMAT subfields
(vcf_to_dataframe.py lines 87-107; helpers.py `nan_to_None`, `dot_to_None`)

A cell of a FORMAT subfield column (DP, GQ, RGQ, AD, PL) is either NaN
(the sample's value string had no such subfield) or a string. The source
maps `nan_to_None`, then `dot_to_None`, then `int` (resp. the
comma-splitting tuple of `int`s) with `na_action='ignore'`, which skips
absent values without attempting a parse. `int()` raises `ValueError` on a
malformed string, which propagates.
-/

/-- A loaded cell of a FORMAT subfield column: NaN or a string. -/
inductive Cell where
  | nan
  | pystr (v : String)
deriving DecidableEq, Repr

/-- helpers.py `nan_to_None`: NaN becomes None, everything else unchanged.
(`np.isnan` raises `TypeError` on a string, caught to mean "not NaN".) -/
def nan_to_None : Cell → Option String
  | .nan => none
  | .pystr s => some s

/-- helpers.py `dot_to_None`: the placeholder `'.'` becomes None, everything
else (including None) unchanged. -/
def dot_to_None : Option String → Option String
  | none => none
  | some s => if s == "." then none else some s

/-- Value of a list of decimal digit characters. -/
def digitsToNat (cs : List Char) : Nat :=
  cs.foldl (fun a c => a * 10 + (c.toNat - 48)) 0

/-- The optional sign accepted by Python `int()`. -/
def pyIntSign (cs : List Char) : Bool × List Char :=
  match cs with
  | c :: rest =>
    if c == '-' then (true, rest)
    else if c == '+' then (false, rest)
    else (false, cs)
  | [] => (false, [])

/-- Python `int(s)` for a string: strip whitespace, accept an optional sign
followed by at least one digit, otherwise raise `ValueError`. (Underscores
between digits, which CPython also accepts, do not occur in VCF numeric
fields and are not modelled.) -/
def pyInt (s : String) : Except PyErr Int :=
  let sg := pyIntSign (stripWs s.data)
  if !sg.2.isEmpty && sg.2.all Char.isDigit then
    .ok (if sg.1 then -(Int.ofNat (digitsToNat sg.2)) else Int.ofNat (digitsToNat sg.2))
  else .error (.valueError ("invalid literal for int() with base 10: " ++ s))

/-- The per-cell pipeline for the integer fields DP, GQ, RGQ:
`.map(nan_to_None).map(dot_to_None).map(int, na_action='ignore')`. -/
def intFieldPipeline (c : Cell) : Except PyErr (Option Int) :=
  match dot_to_None (nan_to_None c) with
  | none => .ok none
  | some s =>
    match pyInt s with
    | .ok n => .ok (some n)
    | .error e => .error e

/-- The per-cell pipeline for the integer-list fields AD, PL:
`.map(nan_to_None).map(dot_to_None).map(lambda v: tuple(int(n) for n in
v.split(',')), na_action='ignore')`. -/
def intListPipeline (c : Cell) : Except PyErr (Option (List Int)) :=
  match dot_to_None (nan_to_None c) with
  | none => .ok none
  | some s =>
    match mapExcept pyInt (pySplit ',' s) with
    | .ok l => .ok (some l)
    | .error e => .error e

/-! ## Genotype Extractor, unfold mode: the table pipeline
(vcf_to_dataframe.py, `_unfold_genotype_data` and `vcf_to_dataframe` lines 59-80)

For `keep_samples` non-empty and `keep_format_data=True` the source runs, in
order: `_unfold_genotype_data` (one row per sample and variant, concatenated
sample-block after sample-block with `ignore_index=True`, then
`sort_values(['chrom', 'pos'])` — a stable multi-column sort on the raw
loaded values — then `reset_index(drop=True)`, which assigns the fresh
contiguous indices 0,1,2,...), then the value-preserving categorical casts
of `GT`, `ref` and `filter` (omitted: they change no value, row, or index),
then `make_chromosome_series_categorical` on the `chrom` column, then
`drop_duplicates()` — which compares column values only (two NaNs count as
equal), keeps the first occurrence of each duplicate group, and keeps the
index labels of the survivors, leaving gaps where rows were dropped. The
INFO/ALT decoding and the integer FORMAT-subfield parsing that follow
(lines 82-107) are per-cell `map`s that preserve the row count, the row
order and the index, and do not touch `sample_id`; they are modelled
separately (`intFieldPipeline` and friends) and omitted from the row model
here.

A loaded data line is modelled with its nine fixed fields as loaded
(`pos` as the integer pandas infers, the rest as strings) plus one cell per
selected sample, positionally aligned with the sample-id list.
-/

/-- A loaded row of the wide table: the nine fixed VCF columns plus one
colon-delimited value cell per selected sample (positionally aligned with
the selected sample-id list). -/
structure SrcRow where
  chrom : String
  pos : Int
  vid : String
  ref : String
  alt : String
  qual : String
  filt : String
  info : String
  fmt : String
  cells : List String
deriving DecidableEq, Repr

/-- One unfolded row, before sorting: the fixed columns (minus the dropped
FORMAT), the genotype mapping from `dict(zip(...))`, and the `sample_id`. -/
structure URow where
  chrom : String
  pos : Int
  vid : String
  ref : String
  alt : String
  qual : String
  filt : String
  info : String
  geno : List (String × String)
  sampleId : String
deriving DecidableEq, Repr

/-- An unfolded row after `reset_index` and the chromosome categorical cast:
`idx` is the pandas index label, `chrom` the categorical value (`none` =
NaN for a value outside the category list). -/
structure NRow where
  idx : Nat
  chrom : Option String
  pos : Int
  vid : String
  ref : String
  alt : String
  qual : String
  filt : String
  info : String
  geno : List (String × String)
  sampleId : String
deriving DecidableEq, Repr

/-- Build the unfolded row of one variant for one sample (the
`parse_genotypes` application plus the `sample_id` column and the drop of
the FORMAT and wide sample columns). -/
def mkURow (r : SrcRow) (cell : String) (sid : String) : URow :=
  ⟨r.chrom, r.pos, r.vid, r.ref, r.alt, r.qual, r.filt, r.info,
   parse_genotypes r.fmt cell, sid⟩

/-- The `pd.concat(sample_frames, ignore_index=True)` stage: for each
selected sample (in order), one block with one unfolded row per variant
(in order). -/
def unfoldConcat (ids : List String) (rows : List SrcRow) : List URow :=
  (ids.enum.map (fun p => rows.map (fun r => mkURow r (r.cells.getD p.1 "") p.2))).flatten

/-- Lexicographic comparison of character lists by code point, the order
pandas uses on a string (object-dtype) column. -/
def charsLt : List Char → List Char → Bool
  | [], [] => false
  | [], _ :: _ => true
  | _ :: _, [] => false
  | a :: as, b :: bs =>
    decide (a.toNat < b.toNat) || (a.toNat == b.toNat && charsLt as bs)

/-- The `sort_values(['chrom', 'pos'])` key order: by the raw chromosome
string (lexicographic — this models the object-dtype column that pandas
infers when the chromosomes are not all numeric), ties by position. -/
def rowKeyLe (a b : String × Int) : Bool :=
  charsLt a.1.data b.1.data || (a.1 == b.1 && decide (a.2 ≤ b.2))

/-- The sort key of an unfolded row. -/
def uRowLe (a b : URow) : Bool :=
  rowKeyLe (a.chrom, a.pos) (b.chrom, b.pos)

/-- Stable insertion: place `x` before the first element `y` with
`le x y`. -/
def insertLe {α : Type} (le : α → α → Bool) (x : α) : List α → List α
  | [] => [x]
  | y :: ys => if le x y then x :: y :: ys else y :: insertLe le x ys

/-- Stable insertion sort, modelling the stable `sort_values` of pandas on
several columns (numpy lexsort). -/
def insSort {α : Type} (le : α → α → Bool) : List α → List α
  | [] => []
  | x :: xs => insertLe le x (insSort le xs)

/-- Shallow embedding of `_unfold_genotype_data`: concatenate the
per-sample blocks, sort stably by (chrom, pos), and number the rows afresh
(`reset_index(drop=True)`), pairing each row with its new index label. -/
def _unfold_genotype_data (ids : List String) (rows : List SrcRow) :
    List (Nat × URow) :=
  (insSort uRowLe (unfoldConcat ids rows)).enum

/-- The `make_chromosome_series_categorical` step applied to the `chrom`
column of the indexed unfolded table (vcf_to_dataframe.py line 76). -/
def applyChromCat (t : List (Nat × URow)) : List NRow :=
  let cats := make_chromosome_series_categorical (t.map (fun p => p.2.chrom))
  (t.zip cats.values).map (fun q =>
    ⟨q.1.1, q.2, q.1.2.pos, q.1.2.vid, q.1.2.ref, q.1.2.alt, q.1.2.qual,
     q.1.2.filt, q.1.2.info, q.1.2.geno, q.1.2.sampleId⟩)

/-- Equality of two genotype mappings as the DataFrame built from the dicts
compares them: on the union of the keys, with an absent entry equal to an
absent entry (NaN == NaN in `duplicated`), later duplicate keys winning. -/
def genoMapEq (g1 g2 : List (String × String)) : Bool :=
  (g1.map Prod.fst ++ g2.map Prod.fst).all (fun k => dLookup g1 k == dLookup g2 k)

/-- Row equality as `drop_duplicates` sees it: all column values equal; the
index label `idx` is not a column and is not compared. -/
def rowEqv (a b : NRow) : Bool :=
  a.chrom == b.chrom && a.pos == b.pos && a.vid == b.vid && a.ref == b.ref &&
  a.alt == b.alt && a.qual == b.qual && a.filt == b.filt && a.info == b.info &&
  genoMapEq a.geno b.geno && a.sampleId == b.sampleId

/-- `drop_duplicates()`: keep each row that equals no earlier-kept row
(first occurrence wins, order and index labels preserved). -/
def dropDupsAux {α : Type} (eqv : α → α → Bool) (seen : List α) : List α → List α
  | [] => []
  | x :: xs =>
    if seen.any (fun s => eqv s x) then dropDupsAux eqv seen xs
    else x :: dropDupsAux eqv (x :: seen) xs

/-- `df.drop_duplicates()` over a list of rows. -/
def drop_duplicates {α : Type} (eqv : α → α → Bool) (l : List α) : List α :=
  dropDupsAux eqv [] l

/-- The unfold-mode table as returned by `vcf_to_dataframe` (rows, order
and index; the later per-cell value decodings preserve all three):
unfold + stable sort + fresh index, chromosome categorical cast, then
`drop_duplicates`. -/
def parseUnfoldTable (ids : List String) (rows : List SrcRow) : List NRow :=
  drop_duplicates rowEqv (applyChromCat (_unfold_genotype_data ids rows))

/-! ## Helper lemmas for the Sample Selector -/

theorem contains_of_mem {l : List String} {x : String} (h : x ∈ l) :
    l.contains x = true :=
  List.elem_eq_true_of_mem h

theorem mem_of_contains {l : List String} {x : String} (h : l.contains x = true) :
    x ∈ l :=
  List.mem_of_elem_eq_true h

theorem checkSamples_ok {header req : List String} (h : ∀ x ∈ req, x ∈ header) :
    checkSamples header req = .ok () := by
  induction req with
  | nil => rfl
  | cons a rest ih =>
    have ha : header.contains a = true := contains_of_mem (h a (List.mem_cons_self a rest))
    simp only [checkSamples, ha, if_true]
    exact ih (fun x hx => h x (List.mem_cons_of_mem a hx))

theorem checkSamples_first_missing {header pre post : List String} {bad : String}
    (hpre : ∀ x ∈ pre, x ∈ header) (hbad : bad ∉ header) :
    checkSamples header (pre ++ bad :: post) = .error (.valueError (notFoundMsg bad)) := by
  induction pre with
  | nil =>
    have hb : header.contains bad = false := by
      cases hc : header.contains bad with
      | false => rfl
      | true => exact absurd (mem_of_contains hc) hbad
    simp only [List.nil_append, checkSamples, hb]
    rfl
  | cons a rest ih =>
    have ha : header.contains a = true := contains_of_mem (hpre a (List.mem_cons_self a rest))
    simp only [List.cons_append, checkSamples, ha, if_true]
    exact ih (fun x hx => hpre x (List.mem_cons_of_mem a hx))

theorem parse_samples_str_ok {s : String} {header : List String}
    (hne : s ≠ "") (hmem : s ∈ header) :
    _parse_samples (.str s) header = .ok [s] := by
  have ht : truthy (.str s) = true := by
    simp only [truthy, Bool.not_eq_true', beq_eq_false_iff_ne, ne_eq]
    exact hne
  have hc : checkSamples header [s] = .ok () :=
    checkSamples_ok (by intro x hx; rw [List.mem_singleton] at hx; exact hx ▸ hmem)
  simp only [_parse_samples, ht, if_true, coerceSpec, hc]

/-! ## Helper lemmas about `mapExcept`, digits and zipping -/

theorem mapExcept_ok_of_all {ε α β : Type} (f : α → Except ε β) (g : α → β)
    {l : List α} (h : ∀ a ∈ l, f a = .ok (g a)) :
    mapExcept f l = .ok (l.map g) := by
  induction l with
  | nil => rfl
  | cons a as ih =>
    have ha := h a (List.mem_cons_self _ _)
    have hr := ih (fun x hx => h x (List.mem_cons_of_mem _ hx))
    simp only [mapExcept, ha, hr, List.map_cons]

theorem mapExcept_ok_iff {ε α β : Type} (f : α → Except ε β) (l : List α) :
    (∃ out, mapExcept f l = .ok out) ↔ ∀ a ∈ l, ∃ b, f a = .ok b := by
  induction l with
  | nil =>
    constructor
    · intro _ a ha; cases ha
    · intro _; exact ⟨[], rfl⟩
  | cons a as ih =>
    constructor
    · rintro ⟨out, hout⟩ x hx
      simp only [mapExcept] at hout
      cases hfa : f a with
      | error e => rw [hfa] at hout; simp at hout
      | ok b =>
        rw [hfa] at hout
        cases hm : mapExcept f as with
        | error e => rw [hm] at hout; simp at hout
        | ok bs =>
          rcases List.mem_cons.mp hx with rfl | hx2
          · exact ⟨b, hfa⟩
          · exact (ih.mp ⟨bs, hm⟩) x hx2
    · intro hall
      obtain ⟨b, hb⟩ := hall a (List.mem_cons_self _ _)
      obtain ⟨bs, hbs⟩ := ih.mpr (fun x hx => hall x (List.mem_cons_of_mem _ hx))
      exact ⟨b :: bs, by simp only [mapExcept, hb, hbs]⟩

theorem except_error_iff_not_ok {ε β : Type} (x : Except ε β) :
    (∃ e, x = .error e) ↔ ¬ ∃ b, x = .ok b := by
  cases x <;> simp

theorem digit_not_ws {c : Char} (h : c.isDigit = true) : isWsChar c = false := by
  by_contra hne
  have hw : isWsChar c = true := by revert hne; cases isWsChar c <;> simp
  simp only [isWsChar, Bool.or_eq_true, beq_iff_eq] at hw
  rcases hw with ((rfl | rfl) | rfl) | rfl <;> exact absurd h (by decide)

theorem stripWs_of_digits {cs : List Char} (h : ∀ c ∈ cs, c.isDigit = true) :
    stripWs cs = cs := by
  unfold stripWs
  have h1 : cs.dropWhile isWsChar = cs := by
    cases cs with
    | nil => rfl
    | cons c t =>
      rw [List.dropWhile_cons, digit_not_ws (h c (List.mem_cons_self _ _))]
      simp
  rw [h1]
  have h2 : cs.reverse.dropWhile isWsChar = cs.reverse := by
    cases hr : cs.reverse with
    | nil => rfl
    | cons c t =>
      have hc : c ∈ cs := by
        rw [← List.mem_reverse, hr]; exact List.mem_cons_self _ _
      rw [List.dropWhile_cons, digit_not_ws (h c hc)]
      simp
  rw [h2, List.reverse_reverse]

theorem pyIntSign_digits {cs : List Char} (hne : cs ≠ [])
    (h : ∀ c ∈ cs, c.isDigit = true) : pyIntSign cs = (false, cs) := by
  cases cs with
  | nil => exact absurd rfl hne
  | cons c rest =>
    have hc : c.isDigit = true := h c (List.mem_cons_self _ _)
    have h1 : (c == '-') = false := by
      rw [beq_eq_false_iff_ne]; rintro rfl; exact absurd hc (by decide)
    have h2 : (c == '+') = false := by
      rw [beq_eq_false_iff_ne]; rintro rfl; exact absurd hc (by decide)
    simp only [pyIntSign, h1, h2, Bool.false_eq_true, if_false]

theorem pyInt_digits {s : String} (hne : s.data ≠ [])
    (h : ∀ c ∈ s.data, c.isDigit = true) :
    pyInt s = .ok (Int.ofNat (digitsToNat s.data)) := by
  have hempty : s.data.isEmpty = false := by
    cases hd : s.data with
    | nil => exact absurd hd hne
    | cons c t => rfl
  have hall : s.data.all Char.isDigit = true := List.all_eq_true.mpr h
  simp only [pyInt, stripWs_of_digits h, pyIntSign_digits hne h, hempty,
    Bool.not_false, hall, Bool.and_self, if_true, Bool.false_eq_true, if_false]

theorem digits_ne_dot {s : String} (hne : s.data ≠ [])
    (h : ∀ c ∈ s.data, c.isDigit = true) : (s == ".") = false := by
  rw [beq_eq_false_iff_ne]
  rintro rfl
  exact absurd (h '.' (by decide)) (by decide)

theorem specGenoCall_search {s : String} (h : specGenoCall s = true) :
    genoRegexSearch s = true := by
  rw [genoRegexSearch, List.any_eq_true]
  have atom_of : ∀ a : Char, (a.isDigit || a == '.') = true → genoAtomChar a = true := by
    intro a ha
    cases hd2 : a.isDigit with
    | true => simp [genoAtomChar, hd2]
    | false =>
      rw [hd2] at ha
      simp only [Bool.false_or, beq_iff_eq] at ha
      subst ha
      decide
  rcases hd : s.data with _ | ⟨a, _ | ⟨j, _ | ⟨b, _ | ⟨c, t⟩⟩⟩⟩
  · have hf : specGenoCall s = false := by rw [specGenoCall, hd]
    rw [hf] at h; exact absurd h (by decide)
  · have h1 : (a.isDigit || a == '.') = true := by
      have h0 : specGenoCall s = (a.isDigit || a == '.') := by rw [specGenoCall, hd]
      rw [← h0]; exact h
    exact ⟨a, List.mem_cons_self _ _, atom_of a h1⟩
  · have hf : specGenoCall s = false := by rw [specGenoCall, hd]
    rw [hf] at h; exact absurd h (by decide)
  · have h1 : ((a.isDigit || a == '.') && (j == '/' || j == '|')
        && (b.isDigit || b == '.')) = true := by
      have h0 : specGenoCall s = ((a.isDigit || a == '.') && (j == '/' || j == '|')
          && (b.isDigit || b == '.')) := by rw [specGenoCall, hd]
      rw [← h0]; exact h
    simp only [Bool.and_eq_true] at h1
    exact ⟨a, List.mem_cons_self _ _, atom_of a h1.1.1⟩
  · have hf : specGenoCall s = false := by rw [specGenoCall, hd]
    rw [hf] at h; exact absurd h (by decide)

theorem extract_genotype_ok_iff (cell : String) :
    (∃ g, _extract_genotype cell = .ok g) ↔ genoRegexSearch (firstSeg cell) = true := by
  cases hs : genoRegexSearch (firstSeg cell) with
  | true =>
    constructor
    · intro _; rfl
    · intro _
      refine ⟨firstSeg cell, ?_⟩
      simp only [_extract_genotype, hs, if_true]
  | false =>
    constructor
    · rintro ⟨g, hg⟩
      simp only [_extract_genotype, hs, Bool.false_eq_true, if_false] at hg
      cases hg
    · intro hx
      exact absurd hx (by decide)

theorem zip_map_fst_take {α β : Type} :
    ∀ (l1 : List α) (l2 : List β), l2.length ≤ l1.length →
      (l1.zip l2).map Prod.fst = l1.take l2.length := by
  intro l1
  induction l1 with
  | nil =>
    intro l2 h
    cases l2 with
    | nil => rfl
    | cons b bs => simp at h
  | cons a as ih =>
    intro l2 h
    cases l2 with
    | nil => rfl
    | cons b bs =>
      simp only [List.zip_cons_cons, List.map_cons, List.length_cons, List.take_succ_cons]
      rw [ih bs (by simpa using h)]

/-! ## Helper lemmas: the sort-key order -/

theorem charToNat_inj {a b : Char} (h : a.toNat = b.toNat) : a = b :=
  Char.ext (UInt32.ext h)

theorem charsLt_connex : ∀ (as bs : List Char), as ≠ bs →
    charsLt as bs = true ∨ charsLt bs as = true := by
  intro as
  induction as with
  | nil =>
    intro bs hne
    cases bs with
    | nil => exact absurd rfl hne
    | cons b bs2 => exact Or.inl rfl
  | cons a as2 ih =>
    intro bs hne
    cases bs with
    | nil => exact Or.inr rfl
    | cons b bs2 =>
      rcases Nat.lt_trichotomy a.toNat b.toNat with hlt | heq | hgt
      · left
        simp only [charsLt, Bool.or_eq_true, decide_eq_true_eq]
        exact Or.inl hlt
      · have hab : a = b := charToNat_inj heq
        subst hab
        have hne2 : as2 ≠ bs2 := fun hx => hne (by rw [hx])
        rcases ih bs2 hne2 with h1 | h1
        · left
          simp only [charsLt, Bool.or_eq_true, Bool.and_eq_true, beq_iff_eq]
          exact Or.inr ⟨by trivial, h1⟩
        · right
          simp only [charsLt, Bool.or_eq_true, Bool.and_eq_true, beq_iff_eq]
          exact Or.inr ⟨by trivial, h1⟩
      · right
        simp only [charsLt, Bool.or_eq_true, decide_eq_true_eq]
        exact Or.inl hgt

theorem charsLt_trans : ∀ (as bs cs : List Char),
    charsLt as bs = true → charsLt bs cs = true → charsLt as cs = true := by
  intro as
  induction as with
  | nil =>
    intro bs cs h1 h2
    cases bs with
    | nil => exact Bool.noConfusion h1
    | cons b bs2 =>
      cases cs with
      | nil => exact Bool.noConfusion h2
      | cons c cs2 => rfl
  | cons a as2 ih =>
    intro bs cs h1 h2
    cases bs with
    | nil => exact Bool.noConfusion h1
    | cons b bs2 =>
      cases cs with
      | nil => exact Bool.noConfusion h2
      | cons c cs2 =>
        simp only [charsLt, Bool.or_eq_true, Bool.and_eq_true, decide_eq_true_eq,
          beq_iff_eq] at h1 h2 ⊢
        rcases h1 with h1 | ⟨h1e, h1r⟩
        · rcases h2 with h2 | ⟨h2e, h2r⟩
          · exact Or.inl (Nat.lt_trans h1 h2)
          · exact Or.inl (h2e ▸ h1)
        · rcases h2 with h2 | ⟨h2e, h2r⟩
          · exact Or.inl (h1e ▸ h2)
          · exact Or.inr ⟨h1e.trans h2e, ih bs2 cs2 h1r h2r⟩

theorem rowKeyLe_refl (a : String × Int) : rowKeyLe a a = true := by
  simp [rowKeyLe]

theorem string_ne_data {a b : String} (h : a ≠ b) : a.data ≠ b.data :=
  fun hd => h (String.ext hd)

theorem rowKeyLe_total (a b : String × Int) :
    rowKeyLe a b = true ∨ rowKeyLe b a = true := by
  by_cases h : a.1 = b.1
  · rcases Int.le_total a.2 b.2 with hle | hle
    · exact Or.inl (by simp [rowKeyLe, h, hle])
    · exact Or.inr (by simp [rowKeyLe, h, hle])
  · rcases charsLt_connex a.1.data b.1.data (string_ne_data h) with h1 | h1
    · exact Or.inl (by simp [rowKeyLe, h1])
    · exact Or.inr (by simp [rowKeyLe, h1])

theorem rowKeyLe_trans (a b c : String × Int)
    (h1 : rowKeyLe a b = true) (h2 : rowKeyLe b c = true) :
    rowKeyLe a c = true := by
  simp only [rowKeyLe, Bool.or_eq_true, Bool.and_eq_true, beq_iff_eq,
    decide_eq_true_eq] at h1 h2 ⊢
  rcases h1 with h1 | ⟨h1e, h1le⟩
  · rcases h2 with h2 | ⟨h2e, h2le⟩
    · exact Or.inl (charsLt_trans _ _ _ h1 h2)
    · exact Or.inl (by rw [← h2e]; exact h1)
  · rcases h2 with h2 | ⟨h2e, h2le⟩
    · exact Or.inl (by rw [h1e]; exact h2)
    · exact Or.inr ⟨h1e.trans h2e, le_trans h1le h2le⟩

theorem uRowLe_total (a b : URow) : uRowLe a b = true ∨ uRowLe b a = true :=
  rowKeyLe_total _ _

theorem uRowLe_trans {a b c : URow} (h1 : uRowLe a b = true)
    (h2 : uRowLe b c = true) : uRowLe a c = true :=
  rowKeyLe_trans _ _ _ h1 h2

theorem uRowLe_of_key_eq {a b : URow} (h : (a.chrom, a.pos) = (b.chrom, b.pos)) :
    uRowLe a b = true := by
  rw [uRowLe, h]
  exact rowKeyLe_refl _

/-! ## Helper lemmas: stable insertion sort -/

theorem mem_insertLe {α : Type} (le : α → α → Bool) (x : α) :
    ∀ (l : List α) (y : α), y ∈ insertLe le x l ↔ y = x ∨ y ∈ l := by
  intro l
  induction l with
  | nil => intro y; simp [insertLe]
  | cons z zs ih =>
    intro y
    rw [insertLe]
    by_cases hxz : le x z = true
    · rw [if_pos hxz]
      simp only [List.mem_cons]
    · rw [if_neg hxz]
      simp only [List.mem_cons, ih y]
      tauto

theorem insertLe_length {α : Type} (le : α → α → Bool) (x : α) :
    ∀ l : List α, (insertLe le x l).length = l.length + 1 := by
  intro l
  induction l with
  | nil => rfl
  | cons z zs ih =>
    rw [insertLe]
    by_cases hxz : le x z = true
    · rw [if_pos hxz]; rfl
    · rw [if_neg hxz]
      simp only [List.length_cons, ih]

theorem insSort_length {α : Type} (le : α → α → Bool) :
    ∀ l : List α, (insSort le l).length = l.length := by
  intro l
  induction l with
  | nil => rfl
  | cons x xs ih =>
    rw [insSort, insertLe_length, ih, List.length_cons]

theorem mem_insSort {α : Type} (le : α → α → Bool) :
    ∀ (l : List α) (y : α), y ∈ insSort le l ↔ y ∈ l := by
  intro l
  induction l with
  | nil => intro y; rfl
  | cons x xs ih =>
    intro y
    rw [insSort, mem_insertLe, ih, List.mem_cons]

theorem insertLe_pairwise {α : Type} {le : α → α → Bool}
    (htot : ∀ a b, le a b = true ∨ le b a = true)
    (htrans : ∀ a b c, le a b = true → le b c = true → le a c = true)
    (x : α) : ∀ {l : List α}, l.Pairwise (fun a b => le a b = true) →
    (insertLe le x l).Pairwise (fun a b => le a b = true) := by
  intro l
  induction l with
  | nil => intro _; simp [insertLe]
  | cons y ys ih =>
    intro h
    rcases List.pairwise_cons.mp h with ⟨hy, hys⟩
    rw [insertLe]
    by_cases hxy : le x y = true
    · rw [if_pos hxy]
      refine List.pairwise_cons.mpr ⟨?_, h⟩
      intro b hb
      rcases List.mem_cons.mp hb with rfl | hbys
      · exact hxy
      · exact htrans x y b hxy (hy b hbys)
    · rw [if_neg hxy]
      refine List.pairwise_cons.mpr ⟨?_, ih hys⟩
      intro b hb
      rcases (mem_insertLe le x ys b).mp hb with rfl | hbys
      · rcases htot b y with h1 | h1
        · exact absurd h1 hxy
        · exact h1
      · exact hy b hbys

theorem insSort_pairwise {α : Type} {le : α → α → Bool}
    (htot : ∀ a b, le a b = true ∨ le b a = true)
    (htrans : ∀ a b c, le a b = true → le b c = true → le a c = true) :
    ∀ l : List α, (insSort le l).Pairwise (fun a b => le a b = true) := by
  intro l
  induction l with
  | nil => exact List.Pairwise.nil
  | cons x xs ih => exact insertLe_pairwise htot htrans x ih

theorem filter_insertLe_pos {α : Type} {le : α → α → Bool} {p : α → Bool}
    (x : α) (hp : p x = true)
    (hbump : ∀ y, p y = true → le x y = true) :
    ∀ l : List α, (insertLe le x l).filter p = x :: l.filter p := by
  intro l
  induction l with
  | nil => simp [insertLe, hp]
  | cons y ys ih =>
    rw [insertLe]
    by_cases hxy : le x y = true
    · rw [if_pos hxy]
      rw [List.filter_cons, if_pos hp]
    · rw [if_neg hxy]
      have hpy : p y = false := by
        cases hpv : p y with
        | false => rfl
        | true => exact absurd (hbump y hpv) hxy
      rw [List.filter_cons, List.filter_cons, hpy]
      simp only [Bool.false_eq_true, if_false]
      exact ih

theorem filter_insertLe_neg {α : Type} {le : α → α → Bool} {p : α → Bool}
    (x : α) (hp : p x = false) :
    ∀ l : List α, (insertLe le x l).filter p = l.filter p := by
  intro l
  induction l with
  | nil => simp [insertLe, hp]
  | cons y ys ih =>
    rw [insertLe]
    by_cases hxy : le x y = true
    · rw [if_pos hxy]
      rw [List.filter_cons, hp]
      simp only [Bool.false_eq_true, if_false]
    · rw [if_neg hxy]
      rw [List.filter_cons, List.filter_cons]
      cases hpv : p y with
      | false => simp only [Bool.false_eq_true, if_false]; exact ih
      | true => simp only [if_true]; rw [ih]

theorem insSort_filter {α : Type} {le : α → α → Bool} {p : α → Bool}
    (hmut : ∀ a b, p a = true → p b = true → le a b = true) :
    ∀ l : List α, (insSort le l).filter p = l.filter p := by
  intro l
  induction l with
  | nil => rfl
  | cons x xs ih =>
    rw [insSort]
    cases hp : p x with
    | true =>
      rw [filter_insertLe_pos x hp (fun y hy => hmut x y hp hy), ih,
        List.filter_cons, if_pos hp]
    | false =>
      rw [filter_insertLe_neg x hp, ih, List.filter_cons, hp]
      simp only [Bool.false_eq_true, if_false]

/-! ## Helper lemmas: enumeration and duplicate removal -/

theorem fst_ge_of_mem_enumFrom {α : Type} :
    ∀ (l : List α) (n : Nat) (p : Nat × α), p ∈ l.enumFrom n → n ≤ p.1 := by
  intro l
  induction l with
  | nil => intro n p hp; cases hp
  | cons x xs ih =>
    intro n p hp
    rcases List.mem_cons.mp hp with rfl | hp2
    · exact Nat.le_refl n
    · exact Nat.le_of_succ_le (ih (n + 1) p hp2)

theorem enumFrom_pairwise_lt {α : Type} :
    ∀ (l : List α) (n : Nat), (l.enumFrom n).Pairwise (fun a b => a.1 < b.1) := by
  intro l
  induction l with
  | nil => intro n; exact List.Pairwise.nil
  | cons x xs ih =>
    intro n
    refine List.pairwise_cons.mpr ⟨?_, ih (n + 1)⟩
    intro b hb
    exact Nat.lt_of_succ_le (fst_ge_of_mem_enumFrom xs (n + 1) b hb)

theorem enum_pairwise_lt {α : Type} (l : List α) :
    l.enum.Pairwise (fun a b => a.1 < b.1) :=
  enumFrom_pairwise_lt l 0

theorem dropDupsAux_sublist {α : Type} (eqv : α → α → Bool) :
    ∀ (l seen : List α), (dropDupsAux eqv seen l).Sublist l := by
  intro l
  induction l with
  | nil => intro seen; exact List.Sublist.refl []
  | cons x xs ih =>
    intro seen
    rw [dropDupsAux]
    by_cases hx : (seen.any (fun s => eqv s x)) = true
    · rw [if_pos hx]
      exact (ih seen).cons x
    · rw [if_neg hx]
      exact (ih (x :: seen)).cons₂ x

theorem drop_duplicates_sublist {α : Type} (eqv : α → α → Bool) (l : List α) :
    (drop_duplicates eqv l).Sublist l :=
  dropDupsAux_sublist eqv l []

theorem dropDupsAux_eq_self {α : Type} (eqv : α → α → Bool) :
    ∀ (l seen : List α), l.Pairwise (fun a b => eqv a b = false) →
      (∀ x ∈ l, ∀ s ∈ seen, eqv s x = false) →
      dropDupsAux eqv seen l = l := by
  intro l
  induction l with
  | nil => intro seen _ _; rfl
  | cons x xs ih =>
    intro seen hpair hseen
    rcases List.pairwise_cons.mp hpair with ⟨hx, hxs⟩
    have hany : (seen.any (fun s => eqv s x)) = false := by
      rw [List.any_eq_false]
      intro s hs
      rw [hseen x (List.mem_cons_self _ _) s hs]
      exact Bool.false_ne_true
    rw [dropDupsAux, hany]
    simp only [Bool.false_eq_true, if_false]
    rw [ih (x :: seen) hxs]
    intro y hy s hs
    rcases List.mem_cons.mp hs with rfl | hs2
    · exact hx y hy
    · exact hseen y (List.mem_cons_of_mem _ hy) s hs2

theorem drop_duplicates_eq_self {α : Type} (eqv : α → α → Bool) {l : List α}
    (h : l.Pairwise (fun a b => eqv a b = false)) :
    drop_duplicates eqv l = l :=
  dropDupsAux_eq_self eqv l [] h (fun _ _ s hs => absurd hs (List.not_mem_nil s))

/-! ## Helper lemmas: lengths and projections of the unfold pipeline -/

theorem sum_map_const {α : Type} (k : Nat) :
    ∀ l : List α, (l.map (fun _ => k)).sum = l.length * k := by
  intro l
  induction l with
  | nil => simp
  | cons _ xs ih =>
    simp only [List.map_cons, List.sum_cons, ih, List.length_cons]
    ring

theorem unfoldConcat_length (ids : List String) (rows : List SrcRow) :
    (unfoldConcat ids rows).length = ids.length * rows.length := by
  rw [unfoldConcat, List.length_flatten]
  have h1 : (ids.enum.map (fun p => rows.map
      (fun r => mkURow r (r.cells.getD p.1 "") p.2))).map List.length
      = ids.enum.map (fun _ => rows.length) := by
    rw [List.map_map]
    apply List.map_congr_left
    intro p _
    simp [List.length_map]
  rw [h1, sum_map_const, List.enum_length]

theorem zip_map_fst_fun {α β γ : Type} (f : α → γ) :
    ∀ (t : List α) (vs : List β), vs.length = t.length →
      (t.zip vs).map (fun q => f q.1) = t.map f := by
  intro t
  induction t with
  | nil => intro vs _; rfl
  | cons x xs ih =>
    intro vs hlen
    cases vs with
    | nil => simp at hlen
    | cons v vs2 =>
      simp only [List.zip_cons_cons, List.map_cons]
      rw [ih vs2 (by simpa using hlen)]

theorem stripChr_length (values : List String) :
    (stripChr values).length = values.length := by
  rw [stripChr]
  by_cases h : (values.all (fun v => startsWithStr "chr" v)) = true
  · rw [if_pos h, List.length_map]
  · rw [if_neg h]

theorem mcc_values_length (series : List String) :
    (make_chromosome_series_categorical series).values.length = series.length := by
  rw [make_chromosome_series_categorical]
  simp only [List.length_map]
  exact stripChr_length series

theorem applyChromCat_length (t : List (Nat × URow)) :
    (applyChromCat t).length = t.length := by
  rw [applyChromCat]
  simp only [List.length_map, List.length_zip, mcc_values_length, List.length_map]
  exact Nat.min_self t.length

theorem applyChromCat_idx (t : List (Nat × URow)) :
    (applyChromCat t).map (fun r => r.idx) = t.map Prod.fst := by
  rw [applyChromCat]
  simp only [List.map_map]
  exact zip_map_fst_fun Prod.fst t _ (by rw [mcc_values_length, List.length_map])

theorem applyChromCat_sampleId {t : List (Nat × URow)} {r : NRow}
    (h : r ∈ applyChromCat t) : ∃ q ∈ t, r.sampleId = q.2.sampleId := by
  rw [applyChromCat] at h
  rcases List.mem_map.mp h with ⟨q, hq, rfl⟩
  exact ⟨q.1, (List.of_mem_zip hq).1, rfl⟩

theorem unfoldConcat_sampleId {ids : List String} {rows : List SrcRow} {u : URow}
    (h : u ∈ unfoldConcat ids rows) : u.sampleId ∈ ids := by
  rw [unfoldConcat] at h
  rcases List.mem_flatten.mp h with ⟨block, hblock, hu⟩
  rcases List.mem_map.mp hblock with ⟨p, hp, rfl⟩
  rcases List.mem_map.mp hu with ⟨r, _, rfl⟩
  have : p.2 ∈ ids := List.snd_mem_of_mem_enum hp
  exact this


/-! ## Claim C1 -/

/-- C1, counterexample. The claim says that on a line sequence with no
`#CHROM` line, `_header_from_vcf` fails with a malformed-file error kind and
never returns a partial or absent result to the caller. On a concrete
header-less file the code instead returns the absent result `None`
(modelled `none`), and `available_samples` then fails with a `TypeError`
(subscripting `None`), not a malformed-file error. -/
theorem C1_counterexample :
    _header_from_vcf ["##fileformat=VCFv4.1", "1\t100\trs1\tA\tT\t50\tPASS\tDP=3"] = none ∧
    available_samples ["##fileformat=VCFv4.1", "1\t100\trs1\tA\tT\t50\tPASS\tDP=3"]
      = .error .typeError := ⟨rfl, rfl⟩

/-- C1, amended. For every line sequence with no line starting with
`#CHROM`, `_header_from_vcf` returns the absent result `None`; the callers
`available_samples` and `vcf_to_dataframe` (modelled by `parsePrelude`, the
part of `vcf_to_dataframe` that runs before the bulk load) then fail with a
Python `TypeError` when they use that `None` — not with a dedicated
malformed-file error kind — and no partial table is produced, for every
requested sample specification. -/
theorem C1_amended (lines : List String)
    (h : ∀ l ∈ lines, startsWithStr "#CHROM" l = false) :
    _header_from_vcf lines = none ∧
    available_samples lines = .error .typeError ∧
    ∀ spec : SampleSpec, parsePrelude lines spec = .error .typeError := by
  have hnone : _header_from_vcf lines = none := by
    induction lines with
    | nil => rfl
    | cons l rest ih =>
      have hl := h l (List.mem_cons_self l rest)
      simp only [_header_from_vcf, hl, Bool.false_eq_true, if_false]
      exact ih (fun x hx => h x (List.mem_cons_of_mem l hx))
  refine ⟨hnone, ?_, ?_⟩
  · simp only [available_samples, hnone]
  · intro spec
    cases spec with
    | noneSpec => simp only [parsePrelude, hnone, expandAll, parseSamplesOpt, truthy,
        Bool.false_eq_true, if_false]
    | int n =>
      simp only [parsePrelude, hnone, expandAll, parseSamplesOpt, truthy]
      by_cases hz : (n == 0) = true <;> simp [hz]
    | list l =>
      simp only [parsePrelude, hnone, expandAll, parseSamplesOpt, truthy]
      by_cases hz : l.isEmpty = true <;> simp [hz]
    | str s =>
      by_cases hall : (lowerStr s == "all") = true
      · simp only [parsePrelude, hnone, expandAll, hall, if_true, available_samples]
      · simp only [parsePrelude, hnone, expandAll, hall, Bool.false_eq_true, if_false,
          parseSamplesOpt, truthy]
        by_cases hz : (s == "") = true <;> simp [hz]

/-- C1, witness for the amended theorem at a concrete header-less file. -/
theorem C1_witness :
    _header_from_vcf ["##meta", "1\t100\trs1\tA\tT\t50\tPASS\tAN=2"] = none ∧
    parsePrelude ["##meta", "1\t100\trs1\tA\tT\t50\tPASS\tAN=2"] (.str "HG00096")
      = .error .typeError :=
  ⟨(C1_amended _ (by decide)).1, (C1_amended _ (by decide)).2.2 (.str "HG00096")⟩

/-! ## Claim C5 -/

/-- C5, counterexample. The claim says any requested specification
containing an identifier absent from the header makes `parse` fail with an
unknown-sample error. The integer request `0` stringifies to `"0"`, which is
absent from the concrete header below; yet, because Python's
`if sample_list:` treats the integer `0` as falsy, `_parse_samples` skips
validation and returns the empty selection, and the parse prelude succeeds,
so the bulk load proceeds with no error at all. -/
theorem C5_counterexample :
    coerceSpec (.int 0) = ["0"] ∧
    ("0" ∈ stdFixed ++ ["S1"] → False) ∧
    _parse_samples (.int 0) (stdFixed ++ ["S1"]) = .ok [] ∧
    parsePrelude ["#CHROM\tPOS\tID\tREF\tALT\tQUAL\tFILTER\tINFO\tFORMAT\tS1"] (.int 0)
      = .ok stdFixed :=
  ⟨rfl, by decide, rfl, rfl⟩

/-- C5, amended. For every truthy requested sample specification (a
non-empty string other than the case-insensitive sentinel "all", a non-zero
integer, or a non-empty list) whose coerced identifier list contains an
identifier absent from the resolved header, `_parse_samples` fails with a
`ValueError` naming the first offending identifier, no partial sample list
is kept, and the same error is the outcome of the whole pre-load phase of
`vcf_to_dataframe`, i.e. the failure occurs before any bulk data load.
Falsy specifications (the integer 0, the empty string, the empty list) are
instead treated as requesting no samples and skip validation. -/
theorem C5_amended (spec : SampleSpec) (header pre post : List String) (bad : String)
    (lines : List String)
    (htr : truthy spec = true)
    (hsplit : coerceSpec spec = pre ++ bad :: post)
    (hpre : ∀ x ∈ pre, x ∈ header)
    (hbad : bad ∉ header)
    (hh : _header_from_vcf lines = some header)
    (hall : specIsAll spec = false) :
    _parse_samples spec header = .error (.valueError (notFoundMsg bad)) ∧
    parsePrelude lines spec = .error (.valueError (notFoundMsg bad)) := by
  have hcheck : checkSamples header (coerceSpec spec)
      = .error (.valueError (notFoundMsg bad)) := by
    rw [hsplit]
    exact checkSamples_first_missing hpre hbad
  have hps : _parse_samples spec header = .error (.valueError (notFoundMsg bad)) := by
    simp only [_parse_samples, htr, if_true, hcheck]
  refine ⟨hps, ?_⟩
  have hexp : expandAll lines spec = .ok spec := by
    cases spec with
    | str s =>
      have : (lowerStr s == "all") = false := by simpa [specIsAll] using hall
      simp only [expandAll, this, Bool.false_eq_true, if_false]
    | noneSpec => rfl
    | int n => rfl
    | list l => rfl
  simp only [parsePrelude, hh, hexp, parseSamplesOpt, hps]

/-- C5, witness for the amended theorem: requesting `["S1", "S9"]` against a
header that only has sample `S1` fails naming `S9`, before the load. -/
theorem C5_witness :
    _parse_samples (.list ["S1", "S9"]) (stdFixed ++ ["S1"])
      = .error (.valueError (notFoundMsg "S9")) ∧
    parsePrelude ["#CHROM\tPOS\tID\tREF\tALT\tQUAL\tFILTER\tINFO\tFORMAT\tS1"]
        (.list ["S1", "S9"])
      = .error (.valueError (notFoundMsg "S9")) :=
  C5_amended (.list ["S1", "S9"]) (stdFixed ++ ["S1"]) ["S1"] [] "S9"
    ["#CHROM\tPOS\tID\tREF\tALT\tQUAL\tFILTER\tINFO\tFORMAT\tS1"]
    (by decide) (by decide) (by decide) (by decide) (by decide) (by decide)

/-! ## Claim C9 -/

/-- C9, counterexample. The claim says every single identifier given as a
string or as an integer-like value is coerced to its string form and
wrapped in a singleton list. The integer `0` stringifies to `"0"` — present
as a sample in the concrete header below — yet `_parse_samples` returns the
empty list, not `["0"]`, because Python's `if sample_list:` treats `0` as
falsy. -/
theorem C9_counterexample :
    pyStrInt 0 = "0" ∧
    _parse_samples (.int 0) (stdFixed ++ ["0"]) = .ok [] ∧
    ([] : List String) ≠ ["0"] :=
  ⟨rfl, rfl, by decide⟩

/-- C9, amended. Every truthy single identifier — a non-empty string, or a
non-zero integer — that passes validation is coerced to its string form and
wrapped in a singleton list; the falsy identifiers `0` and `""` are instead
treated as requesting no samples. -/
theorem C9_amended (n : Int) (s : String) (header : List String)
    (hn : n ≠ 0) (hs : s ≠ "")
    (hn2 : pyStrInt n ∈ header) (hs2 : s ∈ header) :
    _parse_samples (.int n) header = .ok [pyStrInt n] ∧
    _parse_samples (.str s) header = .ok [s] := by
  refine ⟨?_, parse_samples_str_ok hs hs2⟩
  have ht : truthy (.int n) = true := by
    simp only [truthy, Bool.not_eq_true', beq_eq_false_iff_ne, ne_eq]
    exact hn
  have hc : checkSamples header [pyStrInt n] = .ok () :=
    checkSamples_ok (by intro x hx; rw [List.mem_singleton] at hx; exact hx ▸ hn2)
  simp only [_parse_samples, ht, if_true, coerceSpec, hc]

/-- C9, witness for the amended theorem at the integer `7` and the string
`"S1"`, both present in a concrete header. -/
theorem C9_witness :
    _parse_samples (.int 7) (stdFixed ++ ["7", "S1"]) = .ok ["7"] ∧
    _parse_samples (.str "S1") (stdFixed ++ ["7", "S1"]) = .ok ["S1"] :=
  C9_amended 7 "S1" (stdFixed ++ ["7", "S1"]) (by decide) (by decide)
    (by decide) (by decide)

/-! ## Claim C10 -/

/-- C10. Sample validation accepts any identifier appearing anywhere in the
resolved header, including the nine fixed column names: requesting, e.g.,
`INFO` or `CHROM` passes `_parse_samples` without an unknown-sample error,
is returned as the selected "sample" list, and is appended to the selected
columns (`usecols`) that the bulk load will materialize. -/
theorem C10_fixed_name_accepted (s : String) (samples : List String)
    (hs : s ∈ stdFixed) (lines : List String)
    (hh : _header_from_vcf lines = some (stdFixed ++ samples)) :
    _parse_samples (.str s) (stdFixed ++ samples) = .ok [s] ∧
    parsePrelude lines (.str s) = .ok (stdFixed ++ [s]) := by
  have hne : s ≠ "" := by fin_cases hs <;> decide
  have hnall : (lowerStr s == "all") = false := by fin_cases hs <;> decide
  have hmem : s ∈ stdFixed ++ samples := List.mem_append_left samples hs
  have hps : _parse_samples (.str s) (stdFixed ++ samples) = .ok [s] :=
    parse_samples_str_ok hne hmem
  refine ⟨hps, ?_⟩
  have htake : (stdFixed ++ samples).take 9 = stdFixed := by
    have h9 : stdFixed.length = 9 := by decide
    rw [← h9]
    exact List.take_left stdFixed samples
  simp only [parsePrelude, hh, expandAll, hnall, Bool.false_eq_true, if_false,
    parseSamplesOpt, hps, htake]

/-- C10, witness: requesting the fixed column name `INFO` as a sample
against a concrete single-sample file passes validation and is carried into
the selected columns. -/
theorem C10_witness :
    _parse_samples (.str "INFO") (stdFixed ++ ["HG00096"]) = .ok ["INFO"] ∧
    parsePrelude ["#CHROM\tPOS\tID\tREF\tALT\tQUAL\tFILTER\tINFO\tFORMAT\tHG00096"]
        (.str "INFO")
      = .ok (stdFixed ++ ["INFO"]) :=
  C10_fixed_name_accepted "INFO" ["HG00096"] (by decide)
    ["#CHROM\tPOS\tID\tREF\tALT\tQUAL\tFILTER\tINFO\tFORMAT\tHG00096"] (by decide)

/-! ## Claim C2 -/

/-- C2, code evaluation at the failing input. The claim (and the spec's
stated intent, which the code's own `.replace('23', 'X')` line shares) says
the value `"23"` appears as `"X"` in the normalized column. In the code the
category list is computed from the values before the 23→X / 24→Y
replacement, so on the column `["1", "23"]` the replaced value `"X"` is not
among the categories `["1"]` and the categorical cast turns it into NaN.
The second conjunct shows the replacement is only effective when a literal
`"X"` already occurs in the data. -/
theorem C2_code_eval :
    make_chromosome_series_categorical ["1", "23"]
      = ⟨[some "1", none], ["1"]⟩ ∧
    make_chromosome_series_categorical ["X", "23"]
      = ⟨[some "X", some "X"], ["X"]⟩ :=
  ⟨rfl, rfl⟩

/-! ## Claim C6 -/

/-- C6, counterexample. The claim says the compact-mode call fails exactly
when the first colon-delimited segment does not match the genotype-call
pattern (one or two allele tokens optionally joined by / or |). The segment
`"a1b"` does not have that shape, yet `_extract_genos` succeeds and returns
a table containing it, because the code uses `re.search`, which is
satisfied by the digit `1` occurring anywhere in the segment. -/
theorem C6_counterexample :
    specGenoCall "a1b" = false ∧
    _extract_genos [["a1b:0,3"]] = .ok [["a1b"]] :=
  ⟨by decide, rfl⟩

/-- C6, amended. In compact mode the first colon-delimited segment of every
sample-column cell is checked with `GENO_REGEX.search`: the call fails with
a not-a-genotype `ValueError` naming the segment exactly when the segment
contains no character matching `[\d|\.]` (a substring search, not a
full-shape match — so any value containing a digit, `'|'` or `'.'` anywhere
passes, even if it is not shaped like a genotype call); every segment that
does have the full genotype-call shape passes; and a table is returned
exactly when every cell passes, an error being raised otherwise. -/
theorem C6_amended (cell : String) (t : List (List String)) :
    (specGenoCall (firstSeg cell) = true → _extract_genotype cell = .ok (firstSeg cell)) ∧
    (_extract_genotype cell = .error (.valueError (genoErrMsg (firstSeg cell)))
        ↔ genoRegexSearch (firstSeg cell) = false) ∧
    ((∃ t2, _extract_genos t = .ok t2)
        ↔ ∀ row ∈ t, ∀ c ∈ row, genoRegexSearch (firstSeg c) = true) ∧
    ((∃ e, _extract_genos t = .error e)
        ↔ ¬ ∀ row ∈ t, ∀ c ∈ row, genoRegexSearch (firstSeg c) = true) := by
  have hok : ∀ c : String, (∃ g, _extract_genotype c = .ok g)
      ↔ genoRegexSearch (firstSeg c) = true := extract_genotype_ok_iff
  have htab : (∃ t2, _extract_genos t = .ok t2)
      ↔ ∀ row ∈ t, ∀ c ∈ row, genoRegexSearch (firstSeg c) = true := by
    rw [_extract_genos, mapExcept_ok_iff]
    constructor
    · intro h row hrow c hc
      exact (hok c).mp ((mapExcept_ok_iff _ _).mp (h row hrow) c hc)
    · intro h row hrow
      exact (mapExcept_ok_iff _ _).mpr (fun c hc => (hok c).mpr (h row hrow c hc))
  refine ⟨?_, ?_, htab, ?_⟩
  · intro hs
    have := specGenoCall_search hs
    simp only [_extract_genotype, this, if_true]
  · cases hs : genoRegexSearch (firstSeg cell) with
    | true =>
      constructor
      · intro he
        simp only [_extract_genotype, hs, if_true] at he
        cases he
      · intro hx; exact absurd hx (by decide)
    | false =>
      constructor
      · intro _; rfl
      · intro _
        simp only [_extract_genotype, hs, Bool.false_eq_true, if_false]
  · rw [except_error_iff_not_ok]
    exact not_congr htab

/-- C6, witness for the amended theorem: a well-shaped genotype call passes
and is extracted. -/
theorem C6_witness : _extract_genotype "0|1:45" = .ok "0|1" :=
  (C6_amended "0|1:45" []).1 (by decide)

/-! ## Claim C7 -/

/-- C7. In unfold mode, when a sample's value string has fewer
colon-delimited segments (k) than the FORMAT string has names, the per-row
mapping built by `dict(zip(...))` contains entries exactly for the first k
FORMAT names: its key list is the k-prefix of the FORMAT names, its size is
k, and looking up any of the dropped trailing names yields the absent
value, with no error raised (the construction is total). -/
theorem C7_zip_truncation (fmt cell : String)
    (h : (pySplit ':' cell).length ≤ (pySplit ':' fmt).length) :
    (parse_genotypes fmt cell).map Prod.fst
      = (pySplit ':' fmt).take (pySplit ':' cell).length ∧
    (parse_genotypes fmt cell).length = (pySplit ':' cell).length ∧
    (∀ nm ∈ (pySplit ':' fmt).drop (pySplit ':' cell).length,
      nm ∉ (pySplit ':' fmt).take (pySplit ':' cell).length →
      dLookup (parse_genotypes fmt cell) nm = none) := by
  refine ⟨zip_map_fst_take _ _ h, ?_, ?_⟩
  · rw [parse_genotypes, List.length_zip]
    exact Nat.min_eq_right h
  · intro nm _ hnot
    rw [dLookup]
    have hnone : ∀ p ∈ (parse_genotypes fmt cell).reverse, ¬ ((p.1 == nm) = true) := by
      intro p hp hbeq
      rw [List.mem_reverse] at hp
      have hmem : p.1 ∈ (parse_genotypes fmt cell).map Prod.fst :=
        List.mem_map_of_mem Prod.fst hp
      have hfst : (parse_genotypes fmt cell).map Prod.fst
          = (pySplit ':' fmt).take (pySplit ':' cell).length :=
        zip_map_fst_take _ _ h
      rw [hfst] at hmem
      rw [beq_iff_eq] at hbeq
      exact hnot (hbeq ▸ hmem)
    rw [List.find?_eq_none.mpr hnone]
    rfl

/-- C7, witness: FORMAT `GT:AD:DP` with the two-segment value `0/1:45,12`
keeps exactly the keys `GT` and `AD` and silently has no `DP` entry. -/
theorem C7_witness :
    (parse_genotypes "GT:AD:DP" "0/1:45,12").map Prod.fst = ["GT", "AD"] ∧
    dLookup (parse_genotypes "GT:AD:DP" "0/1:45,12") "DP" = none :=
  ⟨(C7_zip_truncation "GT:AD:DP" "0/1:45,12" (by decide)).1,
   (C7_zip_truncation "GT:AD:DP" "0/1:45,12" (by decide)).2.2 "DP" (by decide) (by decide)⟩

/-! ## Claim C8 -/

/-- C8. For the integer FORMAT subfield columns (DP, GQ, RGQ) and the
integer-list columns (AD, PL): a missing (NaN) or placeholder-dot value
becomes the explicit absent value with no error raised, and a well-formed
numeric string (here: non-empty, all decimal digits, per comma-segment for
the list case) parses to the matching integer, resp. the tuple of integers
obtained by splitting on a comma. -/
theorem C8_integer_fields (s : String) :
    intFieldPipeline .nan = .ok none ∧
    intFieldPipeline (.pystr ".") = .ok none ∧
    intListPipeline .nan = .ok none ∧
    intListPipeline (.pystr ".") = .ok none ∧
    (s.data ≠ [] → (∀ c ∈ s.data, c.isDigit = true) →
      intFieldPipeline (.pystr s) = .ok (some (Int.ofNat (digitsToNat s.data)))) ∧
    ((∀ seg ∈ pySplit ',' s, seg.data ≠ [] ∧ ∀ c ∈ seg.data, c.isDigit = true) →
      intListPipeline (.pystr s)
        = .ok (some ((pySplit ',' s).map (fun seg => Int.ofNat (digitsToNat seg.data))))) := by
  refine ⟨rfl, rfl, rfl, rfl, ?_, ?_⟩
  · intro hne h
    have hdot : (s == ".") = false := digits_ne_dot hne h
    simp only [intFieldPipeline, nan_to_None, dot_to_None, hdot, Bool.false_eq_true,
      if_false, pyInt_digits hne h]
  · intro hsegs
    have hdot : (s == ".") = false := by
      rw [beq_eq_false_iff_ne]
      rintro rfl
      have := hsegs "." (by decide)
      exact absurd (this.2 '.' (by decide)) (by decide)
    have hmap : mapExcept pyInt (pySplit ',' s)
        = .ok ((pySplit ',' s).map (fun seg => Int.ofNat (digitsToNat seg.data))) :=
      mapExcept_ok_of_all pyInt (fun seg => Int.ofNat (digitsToNat seg.data))
        (fun seg hseg => pyInt_digits (hsegs seg hseg).1 (hsegs seg hseg).2)
    simp only [intListPipeline, nan_to_None, dot_to_None, hdot, Bool.false_eq_true,
      if_false, hmap]

/-- C8, witness: NaN and "." give absent values, "57" parses to 57 and
"45,12" to the pair (45, 12). -/
theorem C8_witness :
    intFieldPipeline .nan = .ok none ∧
    intFieldPipeline (.pystr ".") = .ok none ∧
    intFieldPipeline (.pystr "57") = .ok (some 57) ∧
    intListPipeline (.pystr "45,12") = .ok (some [45, 12]) :=
  ⟨(C8_integer_fields "57").1, (C8_integer_fields "57").2.1,
   (C8_integer_fields "57").2.2.2.2.1 (by decide) (by decide),
   (C8_integer_fields "45,12").2.2.2.2.2 (by decide)⟩

/-! ## Claim C3 -/

/-- C3, counterexample. The claim says the unfold-mode table has exactly
(distinct source lines after dedup) × (selected samples) rows. Below, the
two source rows are distinct (they differ in sample S2's cell) and two
samples are selected, so the claim requires 2 × 2 = 4 rows; but
`drop_duplicates` runs after the unfolding, where the two rows' unfolded
records for sample S1 coincide, and the returned table has 3 rows. -/
theorem C3_counterexample :
    (⟨"1", 100, "rs1", "A", "T", "50", "PASS", "AN=2", "GT", ["0/1", "0/0"]⟩ : SrcRow)
      ≠ ⟨"1", 100, "rs1", "A", "T", "50", "PASS", "AN=2", "GT", ["0/1", "1/1"]⟩ ∧
    (parseUnfoldTable ["S1", "S2"]
      [⟨"1", 100, "rs1", "A", "T", "50", "PASS", "AN=2", "GT", ["0/1", "0/0"]⟩,
       ⟨"1", 100, "rs1", "A", "T", "50", "PASS", "AN=2", "GT", ["0/1", "1/1"]⟩]).length
      = 3 :=
  ⟨by decide, rfl⟩

/-- C3, amended. In unfold mode the returned table has at most
(source lines) × (selected samples) rows and exactly that many when the
unfolded, normalized records are pairwise distinct; in general the final
`drop_duplicates` (which runs after the unfolding) can merge unfolded
records coming from distinct source lines, so the count can be smaller.
Every row's `sample_id` is always a member of the selected-sample list. -/
theorem C3_amended (ids : List String) (rows : List SrcRow) :
    (parseUnfoldTable ids rows).length ≤ ids.length * rows.length ∧
    (∀ r ∈ parseUnfoldTable ids rows, r.sampleId ∈ ids) ∧
    ((applyChromCat (_unfold_genotype_data ids rows)).Pairwise
        (fun a b => rowEqv a b = false) →
      (parseUnfoldTable ids rows).length = ids.length * rows.length) := by
  have hlen : (applyChromCat (_unfold_genotype_data ids rows)).length
      = ids.length * rows.length := by
    rw [applyChromCat_length, _unfold_genotype_data, List.enum_length, insSort_length,
      unfoldConcat_length]
  refine ⟨?_, ?_, ?_⟩
  · have h1 : (parseUnfoldTable ids rows).length
        ≤ (applyChromCat (_unfold_genotype_data ids rows)).length :=
      (drop_duplicates_sublist _ _).length_le
    exact hlen ▸ h1
  · intro r hr
    have hr2 : r ∈ applyChromCat (_unfold_genotype_data ids rows) :=
      (drop_duplicates_sublist _ _).subset hr
    rcases applyChromCat_sampleId hr2 with ⟨q, hq, heq⟩
    rw [_unfold_genotype_data] at hq
    have hq2 : q.2 ∈ insSort uRowLe (unfoldConcat ids rows) :=
      List.snd_mem_of_mem_enum hq
    have hq3 : q.2 ∈ unfoldConcat ids rows := (mem_insSort _ _ _).mp hq2
    rw [heq]
    exact unfoldConcat_sampleId hq3
  · intro hdist
    rw [parseUnfoldTable, drop_duplicates_eq_self rowEqv hdist, hlen]

/-- C3, witness for the amended theorem at a one-sample, one-variant file:
the unfolded records are trivially pairwise distinct and the table has
1 × 1 row whose `sample_id` is the selected sample. -/
theorem C3_witness :
    (parseUnfoldTable ["S1"]
      [⟨"1", 100, "rs1", "A", "T", "50", "PASS", "AN=2", "GT", ["0/1"]⟩]).length = 1 ∧
    ∀ r ∈ parseUnfoldTable ["S1"]
      [⟨"1", 100, "rs1", "A", "T", "50", "PASS", "AN=2", "GT", ["0/1"]⟩],
      r.sampleId ∈ ["S1"] :=
  ⟨(C3_amended ["S1"]
      [⟨"1", 100, "rs1", "A", "T", "50", "PASS", "AN=2", "GT", ["0/1"]⟩]).2.2 (by decide),
   (C3_amended ["S1"]
      [⟨"1", 100, "rs1", "A", "T", "50", "PASS", "AN=2", "GT", ["0/1"]⟩]).2.1⟩

/-! ## Claim C4 -/

/-- C4, counterexample. The claim says the returned unfold-mode table
carries a fresh contiguous row index 0,1,2,... with no gaps. Below, a
one-sample file with a duplicated variant line unfolds to three rows,
`reset_index` numbers them 0,1,2, and the subsequent `drop_duplicates`
removes the middle row while keeping the index labels of the survivors, so
the returned table's index is [0, 2] — not the contiguous [0, 1]. -/
theorem C4_counterexample :
    (parseUnfoldTable ["S1"]
      [⟨"1", 100, "rs1", "A", "T", "50", "PASS", "AN=2", "GT", ["0/1"]⟩,
       ⟨"1", 100, "rs1", "A", "T", "50", "PASS", "AN=2", "GT", ["0/1"]⟩,
       ⟨"1", 200, "rs2", "A", "G", "50", "PASS", "AN=2", "GT", ["0/1"]⟩]).map
        (fun r => r.idx)
      = [0, 2] ∧
    [0, 2] ≠ [0, 1] :=
  ⟨rfl, by decide⟩

/-- C4, amended. In unfold mode the table produced by
`_unfold_genotype_data` is sorted by the raw loaded (chromosome, position)
values — lexicographically on the chromosome string for an object-dtype
column, which need not agree with the canonical chromosome order — with
ties keeping the pre-sort (concatenation) order, and is given the fresh
contiguous indices 0,1,2,...; the table returned by `vcf_to_dataframe`
preserves that order (its index labels are strictly increasing) but its
index is no longer contiguous when the subsequent `drop_duplicates` removes
unfolded duplicate records. -/
theorem C4_amended (ids : List String) (rows : List SrcRow) :
    (insSort uRowLe (unfoldConcat ids rows)).Pairwise (fun a b => uRowLe a b = true) ∧
    (∀ k : String × Int,
      (insSort uRowLe (unfoldConcat ids rows)).filter (fun r => (r.chrom, r.pos) == k)
        = (unfoldConcat ids rows).filter (fun r => (r.chrom, r.pos) == k)) ∧
    (parseUnfoldTable ids rows).Pairwise (fun a b => a.idx < b.idx) := by
  refine ⟨insSort_pairwise uRowLe_total (fun _ _ _ h1 h2 => uRowLe_trans h1 h2) _,
    ?_, ?_⟩
  · intro k
    apply insSort_filter
    intro a b ha hb
    rw [beq_iff_eq] at ha hb
    exact uRowLe_of_key_eq (by rw [ha, hb])
  · have h2 : ((applyChromCat (_unfold_genotype_data ids rows)).map
        (fun r => r.idx)).Pairwise (· < ·) := by
      rw [applyChromCat_idx, _unfold_genotype_data]
      exact List.pairwise_map.mpr (enum_pairwise_lt _)
    have h1 : (applyChromCat (_unfold_genotype_data ids rows)).Pairwise
        (fun a b => a.idx < b.idx) := List.pairwise_map.mp h2
    exact List.Pairwise.sublist (drop_duplicates_sublist _ _) h1
